import Mathlib

/-!
Verification of the layout-comparison engine of the canvas evaluation
repository.  The Python sources under `src/evaluation/` are shallowly
embedded: rectangles and node trees become Lean structures, the scipy
assignment solver is modelled as an exhaustive minimum-cost search over
injective partial matchings, and Python floats become rationals (reals
for the logarithmic grid-alignment score).
-/

namespace Canvas

/-- Axis-aligned rectangle, the `{x, y, width, height}` dictionaries of
`hungarian_iou.py`. -/
structure Box where
  x : ℚ
  y : ℚ
  width : ℚ
  height : ℚ
deriving DecidableEq, Repr

instance : Inhabited Box := ⟨⟨0, 0, 0, 0⟩⟩

/-- `compute_iou` from `src/evaluation/layout/hungarian_iou.py` (the copy in
`block_matcher.py` is textually identical): intersection over union of two
axis-aligned rectangles, `0.0` when the union area is not positive. -/
def compute_iou (boxA boxB : Box) : ℚ :=
  let xA := max boxA.x boxB.x
  let yA := max boxA.y boxB.y
  let xB := min (boxA.x + boxA.width) (boxB.x + boxB.width)
  let yB := min (boxA.y + boxA.height) (boxB.y + boxB.height)
  let interArea := max 0 (xB - xA) * max 0 (yB - yA)
  let boxAArea := boxA.width * boxA.height
  let boxBArea := boxB.width * boxB.height
  let unionArea := boxAArea + boxBArea - interArea
  if unionArea > 0 then interArea / unionArea else 0

/-- Geometric disjointness of two axis-aligned rectangles: the horizontal or
the vertical extents do not overlap. -/
def RectDisjoint (boxA boxB : Box) : Prop :=
  min (boxA.x + boxA.width) (boxB.x + boxB.width) ≤ max boxA.x boxB.x ∨
  min (boxA.y + boxA.height) (boxB.y + boxB.height) ≤ max boxA.y boxB.y

lemma compute_iou_comm (A B : Box) : compute_iou A B = compute_iou B A := by
  unfold compute_iou
  rw [max_comm A.x B.x, max_comm A.y B.y,
    min_comm (A.x + A.width) (B.x + B.width),
    min_comm (A.y + A.height) (B.y + B.height)]
  ring_nf

lemma compute_iou_self (A : Box) (hw : 0 ≤ A.width) (hh : 0 ≤ A.height)
    (harea : 0 < A.width * A.height) : compute_iou A A = 1 := by
  unfold compute_iou
  simp only [max_self, min_self, add_sub_cancel_left, max_eq_right hw, max_eq_left hw,
    max_eq_right hh]
  rw [if_pos harea, div_self (ne_of_gt harea)]

lemma compute_iou_disjoint (A B : Box) (h : RectDisjoint A B) :
    compute_iou A B = 0 := by
  rcases h with h | h
  · simp only [compute_iou]
    rw [max_eq_left (sub_nonpos.mpr h), zero_mul]
    split
    · exact zero_div _
    · rfl
  · simp only [compute_iou]
    rw [max_eq_left (sub_nonpos.mpr h), mul_zero]
    split
    · exact zero_div _
    · rfl

lemma compute_iou_degenerate (A B : Box) (hA : A.width * A.height ≤ 0)
    (hB : B.width * B.height ≤ 0) : compute_iou A B = 0 := by
  simp only [compute_iou]
  have hinter : (0:ℚ) ≤ max 0 (min (A.x + A.width) (B.x + B.width) - max A.x B.x) *
      max 0 (min (A.y + A.height) (B.y + B.height) - max A.y B.y) :=
    mul_nonneg (le_max_left _ _) (le_max_left _ _)
  rw [if_neg (by push_neg; linarith)]

/-- C5: `compute_iou` is symmetric; self-IoU of a rectangle of positive area
(with the data-model invariant of nonnegative sides) is `1`; disjoint pairs
and pairs where neither rectangle has positive area score `0`. -/
theorem c5_iou_props (A B : Box) :
    compute_iou A B = compute_iou B A ∧
    (0 ≤ A.width → 0 ≤ A.height → 0 < A.width * A.height → compute_iou A A = 1) ∧
    (RectDisjoint A B → compute_iou A B = 0) ∧
    (A.width * A.height ≤ 0 → B.width * B.height ≤ 0 → compute_iou A B = 0) :=
  ⟨compute_iou_comm A B,
   fun hw hh harea => compute_iou_self A hw hh harea,
   fun h => compute_iou_disjoint A B h,
   fun hA hB => compute_iou_degenerate A B hA hB⟩

/-- C5 witness: the unit square has self-IoU `1`, and a disjoint pair
scores `0`. -/
theorem c5_iou_props_witness :
    compute_iou ⟨0, 0, 1, 1⟩ ⟨0, 0, 1, 1⟩ = 1 ∧
    compute_iou ⟨0, 0, 1, 1⟩ ⟨2, 2, 1, 1⟩ = 0 :=
  ⟨(c5_iou_props ⟨0, 0, 1, 1⟩ ⟨0, 0, 1, 1⟩).2.1 (by norm_num) (by norm_num) (by norm_num),
   (c5_iou_props ⟨0, 0, 1, 1⟩ ⟨2, 2, 1, 1⟩).2.2.1 (Or.inl (by norm_num))⟩

/-! ### The assignment solver

`scipy.optimize.linear_sum_assignment` is external to the repository; it is
modelled extensionally as an exhaustive minimum-cost search over all
injective partial matchings of size `min m n`, which is exactly the
contract the callers rely on: a minimum-cost assignment matching the whole
smaller side, rows and columns each used at most once. -/

/-- All injective sequences of length `k` drawn from `avail`. -/
def injFrom : List ℕ → ℕ → List (List ℕ)
  | _, 0 => [[]]
  | avail, k + 1 =>
    avail.flatMap fun c => (injFrom (avail.erase c) k).map fun rest => c :: rest

/-- Total cost of a pairing under a cost function. -/
def totalCost (cost : ℕ → ℕ → ℚ) (pairs : List (ℕ × ℕ)) : ℚ :=
  (pairs.map fun p => cost p.1 p.2).sum

/-- Left fold keeping the argument of strictly smaller value (first wins
ties, making the solver deterministic). -/
def pickMin {α : Type} (f : α → ℚ) (b : α) (l : List α) : α :=
  l.foldl (fun best c => if f c < f best then c else best) b

/-- All candidate assignments of size `min m n` between rows `[0, m)` and
columns `[0, n)`: the whole smaller side is matched injectively into the
larger side. -/
def assignmentCandidates (m n : ℕ) : List (List (ℕ × ℕ)) :=
  if m ≤ n then
    (injFrom (List.range n) m).map fun cols => (List.range m).zip cols
  else
    (injFrom (List.range m) n).map fun rows => rows.zip (List.range n)

/-- Model of `scipy.optimize.linear_sum_assignment` on an `m × n` cost
matrix: a minimum-total-cost candidate assignment. -/
def linear_sum_assignment (cost : ℕ → ℕ → ℚ) (m n : ℕ) : List (ℕ × ℕ) :=
  match assignmentCandidates m n with
  | [] => []
  | c :: cs => pickMin (totalCost cost) c cs

lemma injFrom_sound {avail : List ℕ} {k : ℕ} (hav : avail.Nodup)
    {l : List ℕ} (hl : l ∈ injFrom avail k) :
    l.length = k ∧ l.Nodup ∧ ∀ x ∈ l, x ∈ avail := by
  induction k generalizing avail l with
  | zero =>
    simp only [injFrom, List.mem_singleton] at hl
    subst hl
    simp
  | succ k ih =>
    simp only [injFrom, List.mem_flatMap, List.mem_map] at hl
    obtain ⟨c, hc, rest, hrest, hl⟩ := hl
    subst hl
    obtain ⟨hlen, hnd, hsub⟩ := ih (hav.erase c) hrest
    refine ⟨by simp [hlen], List.nodup_cons.mpr ⟨?_, hnd⟩, ?_⟩
    · intro hmem
      exact ((hav.mem_erase_iff).mp (hsub c hmem)).1 rfl
    · intro x hx
      rcases List.mem_cons.mp hx with h | h
      · exact h ▸ hc
      · exact List.mem_of_mem_erase (hsub x h)

lemma injFrom_ne_nil {avail : List ℕ} {k : ℕ} (h : k ≤ avail.length) :
    injFrom avail k ≠ [] := by
  induction k generalizing avail with
  | zero => simp [injFrom]
  | succ k ih =>
    match avail, h with
    | a :: rest, h =>
      have hk : k ≤ ((a :: rest).erase a).length := by
        rw [List.length_erase_of_mem (List.mem_cons_self a rest)]
        simpa using Nat.le_of_succ_le_succ h
      obtain ⟨l, hl⟩ := List.exists_mem_of_ne_nil _ (ih hk)
      have : (a :: l) ∈ injFrom (a :: rest) (k + 1) := by
        simp only [injFrom, List.mem_flatMap, List.mem_map]
        exact ⟨a, List.mem_cons_self a rest, l, hl, rfl⟩
      exact List.ne_nil_of_mem this

lemma pickMin_mem {α : Type} (f : α → ℚ) (b : α) (l : List α) :
    pickMin f b l = b ∨ pickMin f b l ∈ l := by
  induction l generalizing b with
  | nil => exact Or.inl rfl
  | cons c cs ih =>
    simp only [pickMin, List.foldl_cons] at ih ⊢
    rcases ih (if f c < f b then c else b) with h | h
    · rw [h]
      split
      · exact Or.inr (List.mem_cons_self _ _)
      · exact Or.inl rfl
    · exact Or.inr (List.mem_cons_of_mem _ h)

lemma assignmentCandidates_ne_nil (m n : ℕ) : assignmentCandidates m n ≠ [] := by
  unfold assignmentCandidates
  split
  · intro hcon
    exact injFrom_ne_nil (by simpa using ‹m ≤ n›) (List.map_eq_nil_iff.mp hcon)
  · intro hcon
    exact injFrom_ne_nil (by simp; omega) (List.map_eq_nil_iff.mp hcon)

lemma linear_sum_assignment_mem (cost : ℕ → ℕ → ℚ) (m n : ℕ) :
    linear_sum_assignment cost m n ∈ assignmentCandidates m n := by
  unfold linear_sum_assignment
  split
  · exact absurd ‹assignmentCandidates m n = []› (assignmentCandidates_ne_nil m n)
  · rename_i c cs heq
    rw [heq]
    rcases pickMin_mem (totalCost cost) c cs with h | h
    · rw [h]
      exact List.mem_cons_self _ _
    · exact List.mem_cons_of_mem _ h

lemma assignmentCandidates_spec {m n : ℕ} {p : List (ℕ × ℕ)}
    (hp : p ∈ assignmentCandidates m n) :
    (p.map Prod.fst).Nodup ∧ (p.map Prod.snd).Nodup ∧
      p.length = min m n ∧ ∀ q ∈ p, q.1 < m ∧ q.2 < n := by
  unfold assignmentCandidates at hp
  split at hp
  · rename_i hmn
    obtain ⟨cols, hcols, hzip⟩ := List.mem_map.mp hp
    obtain ⟨hlen, hnd, hsub⟩ := injFrom_sound (List.nodup_range n) hcols
    subst hzip
    have hlr : (List.range m).length ≤ cols.length := by simp [hlen]
    have hrl : cols.length ≤ (List.range m).length := by simp [hlen]
    refine ⟨?_, ?_, ?_, ?_⟩
    · rw [List.map_fst_zip _ _ hlr]
      exact List.nodup_range m
    · rw [List.map_snd_zip _ _ hrl]
      exact hnd
    · rw [List.length_zip]
      simp [hlen, Nat.min_eq_left hmn]
    · intro q hq
      obtain ⟨h1, h2⟩ := List.of_mem_zip hq
      exact ⟨List.mem_range.mp h1, List.mem_range.mp (hsub _ h2)⟩
  · rename_i hmn
    obtain ⟨rows, hrows, hzip⟩ := List.mem_map.mp hp
    obtain ⟨hlen, hnd, hsub⟩ := injFrom_sound (List.nodup_range m) hrows
    subst hzip
    have hlr : rows.length ≤ (List.range n).length := by simp [hlen]
    have hrl : (List.range n).length ≤ rows.length := by simp [hlen]
    refine ⟨?_, ?_, ?_, ?_⟩
    · rw [List.map_fst_zip _ _ hlr]
      exact hnd
    · rw [List.map_snd_zip _ _ hrl]
      exact List.nodup_range n
    · rw [List.length_zip]
      simp only [hlen, List.length_range]
      omega
    · intro q hq
      obtain ⟨h1, h2⟩ := List.of_mem_zip hq
      exact ⟨List.mem_range.mp (hsub _ h1), List.mem_range.mp h2⟩

lemma linear_sum_assignment_spec (cost : ℕ → ℕ → ℚ) (m n : ℕ) :
    ((linear_sum_assignment cost m n).map Prod.fst).Nodup ∧
    ((linear_sum_assignment cost m n).map Prod.snd).Nodup ∧
    (linear_sum_assignment cost m n).length = min m n ∧
    ∀ q ∈ linear_sum_assignment cost m n, q.1 < m ∧ q.2 < n :=
  assignmentCandidates_spec (linear_sum_assignment_mem cost m n)

/-! ### Layout matching (`compute_layout_iou`)

The in-memory core of `compute_layout_iou` from
`src/evaluation/layout/hungarian_iou.py`, after the two box lists have
been loaded: the cost matrix, the Hungarian assignment, the matched pairs
(every assigned pair, no IoU filter in this variant), and the metrics.
File loading, report writing and visualization are I/O and are omitted. -/

/-- Result record of `compute_layout_iou`. -/
structure LayoutResult where
  num_gt : ℕ
  num_gen : ℕ
  num_matched : ℕ
  matched_pairs : List (ℕ × ℕ × ℚ)
  mean_iou : ℚ
  precision : ℚ
  recall_ : ℚ
deriving DecidableEq, Repr

/-- IoU of the `i`-th GT box and the `j`-th GEN box. -/
def iouAt (gt_boxes gen_boxes : List Box) (i j : ℕ) : ℚ :=
  compute_iou (gt_boxes.getD i default) (gen_boxes.getD j default)

/-- Core of `compute_layout_iou` (hungarian_iou.py lines 158-253) on
already-loaded box lists. -/
def compute_layout_iou_core (gt_boxes gen_boxes : List Box) : LayoutResult :=
  let n_gt := gt_boxes.length
  let n_gen := gen_boxes.length
  let cost := fun i j => 1 - iouAt gt_boxes gen_boxes i j
  let assignment :=
    if 0 < n_gt ∧ 0 < n_gen then linear_sum_assignment cost n_gt n_gen else []
  let matched_pairs :=
    assignment.map fun p => (p.1, p.2, iouAt gt_boxes gen_boxes p.1 p.2)
  let matched_ious := matched_pairs.map fun t => t.2.2
  let mean_iou :=
    if matched_ious.length ≠ 0 then matched_ious.sum / matched_ious.length else 0
  let precision := if n_gen ≠ 0 then (matched_pairs.length : ℚ) / n_gen else 1
  let recall_ := if n_gt ≠ 0 then (matched_pairs.length : ℚ) / n_gt else 1
  ⟨n_gt, n_gen, matched_pairs.length, matched_pairs, mean_iou, precision, recall_⟩

/-- An alignment group as matched across trees: its edge-kind string and
its union bounding box (`group_alignment.py`). -/
structure AlignGroup where
  alignment_type : String
  box : Box
deriving DecidableEq, Repr

instance : Inhabited AlignGroup := ⟨⟨"", default⟩⟩

/-- IoU of the `i`-th GT group and the `j`-th GEN group. -/
def groupIouAt (gt_groups gen_groups : List AlignGroup) (i j : ℕ) : ℚ :=
  compute_iou (gt_groups.getD i default).box (gen_groups.getD j default).box

/-- `match_alignment_groups` from
`src/evaluation/alignment/group_alignment.py`: Hungarian matching on the
union bounding boxes, keeping only pairs of strictly positive IoU. -/
def match_alignment_groups (gt_groups gen_groups : List AlignGroup) :
    List (ℕ × ℕ × ℚ) :=
  let n_gt := gt_groups.length
  let n_gen := gen_groups.length
  if n_gt = 0 ∨ n_gen = 0 then []
  else
    let iou := groupIouAt gt_groups gen_groups
    let cost := fun i j => 1 - iou i j
    ((linear_sum_assignment cost n_gt n_gen).filter fun p =>
        decide (0 < iou p.1 p.2)).map fun p => (p.1, p.2, iou p.1 p.2)

/-- `hungarian_bbox_matching` from
`src/evaluation/metrics/component_similarity/block_matcher.py`: Hungarian
matching on boxes, keeping only pairs whose IoU reaches the threshold. -/
def hungarian_bbox_matching (gt_boxes gen_boxes : List Box)
    (iou_threshold : ℚ) : List (ℕ × ℕ) :=
  let num_gt := gt_boxes.length
  let num_gen := gen_boxes.length
  if num_gt = 0 ∨ num_gen = 0 then []
  else
    let iou := iouAt gt_boxes gen_boxes
    let cost := fun i j => 1 - iou i j
    (linear_sum_assignment cost num_gt num_gen).filter fun p =>
      decide (iou_threshold ≤ iou p.1 p.2)

lemma map_tripled_fst (l : List (ℕ × ℕ)) (g : ℕ → ℕ → ℚ) :
    ((l.map fun p => (p.1, p.2, g p.1 p.2)).map fun t => t.1) = l.map Prod.fst := by
  simp [List.map_map, Function.comp_def]

lemma map_tripled_snd (l : List (ℕ × ℕ)) (g : ℕ → ℕ → ℚ) :
    ((l.map fun p => (p.1, p.2, g p.1 p.2)).map fun t => t.2.1) = l.map Prod.snd := by
  simp [List.map_map, Function.comp_def]

/-- C4: the matching produced by the optimal matcher is a partial injective
mapping — the raw assignment, `compute_layout_iou`'s matched pairs and
`match_alignment_groups`'s matched pairs repeat no GT index and no GEN
index, and have at most `min` of the two sizes many pairs. -/
theorem c4_matching_injective (cost : ℕ → ℕ → ℚ) (m n : ℕ)
    (gt_boxes gen_boxes : List Box) (gt_groups gen_groups : List AlignGroup) :
    (((linear_sum_assignment cost m n).map Prod.fst).Nodup ∧
      ((linear_sum_assignment cost m n).map Prod.snd).Nodup ∧
      (linear_sum_assignment cost m n).length ≤ min m n) ∧
    (((compute_layout_iou_core gt_boxes gen_boxes).matched_pairs.map fun t => t.1).Nodup ∧
      ((compute_layout_iou_core gt_boxes gen_boxes).matched_pairs.map fun t => t.2.1).Nodup ∧
      (compute_layout_iou_core gt_boxes gen_boxes).num_matched
        ≤ min gt_boxes.length gen_boxes.length) ∧
    (((match_alignment_groups gt_groups gen_groups).map fun t => t.1).Nodup ∧
      ((match_alignment_groups gt_groups gen_groups).map fun t => t.2.1).Nodup ∧
      (match_alignment_groups gt_groups gen_groups).length
        ≤ min gt_groups.length gen_groups.length) := by
  obtain ⟨h1, h2, h3, -⟩ := linear_sum_assignment_spec cost m n
  refine ⟨⟨h1, h2, le_of_eq h3⟩, ?_, ?_⟩
  · simp only [compute_layout_iou_core]
    rw [map_tripled_fst, map_tripled_snd]
    split
    · obtain ⟨g1, g2, g3, -⟩ := linear_sum_assignment_spec
        (fun i j => 1 - iouAt gt_boxes gen_boxes i j) gt_boxes.length gen_boxes.length
      exact ⟨g1, g2, by simp [g3]⟩
    · simp
  · simp only [match_alignment_groups]
    split
    · simp
    · rw [map_tripled_fst, map_tripled_snd]
      obtain ⟨g1, g2, g3, -⟩ := linear_sum_assignment_spec
        (fun i j => 1 - groupIouAt gt_groups gen_groups i j)
        gt_groups.length gen_groups.length
      have hsubf := (List.filter_sublist (l := linear_sum_assignment
        (fun i j => 1 - groupIouAt gt_groups gen_groups i j)
        gt_groups.length gen_groups.length)
        (p := fun p => decide (0 < groupIouAt gt_groups gen_groups p.1 p.2)))
      refine ⟨(g1.sublist (hsubf.map Prod.fst)), (g2.sublist (hsubf.map Prod.snd)), ?_⟩
      rw [List.length_map]
      calc (List.filter _ _).length ≤ _ := hsubf.length_le
        _ ≤ _ := le_of_eq g3

/-- C3: in `compute_layout_iou`, precision is `|matches| / |GEN|` and recall
is `|matches| / |GT|`, each quotient read as `1` when its denominator is
`0`; for an empty GT list and non-empty GEN list recall is `1` and
precision is `0`, and the (total) core function raises nothing there. -/
theorem c3_precision_recall (gt_boxes gen_boxes : List Box) :
    (gen_boxes.length ≠ 0 →
      (compute_layout_iou_core gt_boxes gen_boxes).precision =
        ((compute_layout_iou_core gt_boxes gen_boxes).num_matched : ℚ) / gen_boxes.length) ∧
    (gen_boxes.length = 0 → (compute_layout_iou_core gt_boxes gen_boxes).precision = 1) ∧
    (gt_boxes.length ≠ 0 →
      (compute_layout_iou_core gt_boxes gen_boxes).recall_ =
        ((compute_layout_iou_core gt_boxes gen_boxes).num_matched : ℚ) / gt_boxes.length) ∧
    (gt_boxes.length = 0 → (compute_layout_iou_core gt_boxes gen_boxes).recall_ = 1) ∧
    (compute_layout_iou_core [] gen_boxes).recall_ = 1 ∧
    (gen_boxes ≠ [] → (compute_layout_iou_core [] gen_boxes).precision = 0) := by
  refine ⟨fun h => by simp [compute_layout_iou_core, h], fun h => by
      simp [compute_layout_iou_core, h],
    fun h => by simp [compute_layout_iou_core, h], fun h => by
      simp [compute_layout_iou_core, h], ?_, ?_⟩
  · simp [compute_layout_iou_core]
  · intro hgen
    have hlen : gen_boxes.length ≠ 0 := by
      simpa [List.length_eq_zero] using hgen
    simp [compute_layout_iou_core, hlen]

/-- C3 witness: empty GT list against one unit square (recall `1`,
precision `0`), and one unit square against an empty GEN list
(precision `1` by the empty-denominator convention). -/
theorem c3_precision_recall_witness :
    (compute_layout_iou_core [] [⟨0, 0, 1, 1⟩]).recall_ = 1 ∧
    (compute_layout_iou_core [] [⟨0, 0, 1, 1⟩]).precision = 0 ∧
    (compute_layout_iou_core [⟨0, 0, 1, 1⟩] []).precision = 1 :=
  ⟨(c3_precision_recall [] [⟨0, 0, 1, 1⟩]).2.2.2.2.1,
   (c3_precision_recall [] [⟨0, 0, 1, 1⟩]).2.2.2.2.2 (by simp),
   (c3_precision_recall [⟨0, 0, 1, 1⟩] []).2.1 rfl⟩

unseal Rat.add Rat.mul Rat.sub Rat.inv in
/-- C1 counterexample: for one GT unit square at the origin and one GEN
unit square at `(10, 10)` the two rectangles have IoU `0`, yet
`compute_layout_iou` reports the pair `(0, 0)` as matched and counts it in
`num_matched` — the claimed zero-overlap filter does not exist in
`compute_layout_iou`. -/
theorem c1_counterexample :
    compute_iou ⟨0, 0, 1, 1⟩ ⟨10, 10, 1, 1⟩ = 0 ∧
    (compute_layout_iou_core [⟨0, 0, 1, 1⟩] [⟨10, 10, 1, 1⟩]).num_matched = 1 ∧
    (0, 0, (0 : ℚ)) ∈
      (compute_layout_iou_core [⟨0, 0, 1, 1⟩] [⟨10, 10, 1, 1⟩]).matched_pairs := by
  decide

/-- C1 amended: the zero-IoU filter lives in `match_alignment_groups`
(pairs are kept only when IoU is strictly positive) and in
`hungarian_bbox_matching` (only when IoU reaches the threshold);
`compute_layout_iou` keeps every Hungarian-assigned pair regardless of
overlap, so with both lists non-empty `num_matched = min(|GT|, |GEN|)`. -/
theorem c1_amended (gt_groups gen_groups : List AlignGroup)
    (gt_boxes gen_boxes : List Box) (thr : ℚ) :
    (∀ p ∈ match_alignment_groups gt_groups gen_groups, 0 < p.2.2) ∧
    (∀ p ∈ hungarian_bbox_matching gt_boxes gen_boxes thr,
        thr ≤ iouAt gt_boxes gen_boxes p.1 p.2) ∧
    (gt_boxes ≠ [] → gen_boxes ≠ [] →
      (compute_layout_iou_core gt_boxes gen_boxes).num_matched
        = min gt_boxes.length gen_boxes.length) := by
  refine ⟨?_, ?_, ?_⟩
  · intro p hp
    simp only [match_alignment_groups] at hp
    split at hp
    · simp at hp
    · obtain ⟨q, hq, hpq⟩ := List.mem_map.mp hp
      have := List.of_mem_filter hq
      simp only [decide_eq_true_eq] at this
      subst hpq
      exact this
  · intro p hp
    simp only [hungarian_bbox_matching] at hp
    split at hp
    · simp at hp
    · have := List.of_mem_filter hp
      simpa using this
  · intro hgt hgen
    have hgt0 : 0 < gt_boxes.length := List.length_pos.mpr hgt
    have hgen0 : 0 < gen_boxes.length := List.length_pos.mpr hgen
    simp only [compute_layout_iou_core]
    rw [if_pos ⟨hgt0, hgen0⟩, List.length_map]
    exact (linear_sum_assignment_spec _ _ _).2.2.1

unseal Rat.add Rat.mul Rat.sub Rat.inv in
/-- C1 amended witness: a matched group pair carries a positive IoU, a
matched block pair reaches the threshold, and the unfiltered layout
matcher counts `min 1 1 = 1` pair even for disjoint rectangles. -/
theorem c1_amended_witness :
    ((0, 0, (1 : ℚ)) ∈
        match_alignment_groups [⟨"x_left", ⟨0, 0, 1, 1⟩⟩] [⟨"x_left", ⟨0, 0, 1, 1⟩⟩] ∧
      (0 : ℚ) < 1) ∧
    (compute_layout_iou_core [⟨0, 0, 1, 1⟩] [⟨10, 10, 1, 1⟩]).num_matched = min 1 1 :=
  ⟨⟨by decide,
    (c1_amended [⟨"x_left", ⟨0, 0, 1, 1⟩⟩] [⟨"x_left", ⟨0, 0, 1, 1⟩⟩] [] [] 0).1
      (0, 0, (1 : ℚ)) (by decide)⟩,
   (c1_amended [] [] [⟨0, 0, 1, 1⟩] [⟨10, 10, 1, 1⟩] 0).2.2 (by simp) (by simp)⟩

/-! ### Node trees and the flatteners

A design-export node as consumed by the engine: identity, display name,
type tag, visibility, opacity, optional `absoluteBoundingBox`, optional
`absoluteRenderBounds`, children. -/

/-- A node of the design tree. -/
inductive Node where
  | mk (id name ntype : String) (visible : Bool) (opacity : ℚ)
      (bbox : Option Box) (rbox : Option Box) (children : List Node) : Node

/-- The node's `absoluteBoundingBox`, when present. -/
def Node.bbox : Node → Option Box
  | .mk _ _ _ _ _ b _ _ => b

/-- The node's type tag. -/
def Node.ntype : Node → String
  | .mk _ _ t _ _ _ _ _ => t

/-- The node's children. -/
def Node.children : Node → List Node
  | .mk _ _ _ _ _ _ _ cs => cs

/-- A flattened rectangle record as produced by `extract_boxes_from_node`
in `src/evaluation/layout/hungarian_iou.py`. -/
structure BoxRec where
  id : String
  name : String
  ntype : String
  x : ℚ
  y : ℚ
  width : ℚ
  height : ℚ
  depth : ℕ
  render : Option Box
deriving DecidableEq, Repr

mutual

/-- `extract_boxes_from_node` (hungarian_iou.py lines 74-101): emit the
node's own rectangle when it is visible, has opacity above `0.01` and
carries an `absoluteBoundingBox`, then always recurse into the children
with `depth + 1`.  There is no depth bound in this flattener. -/
def extract_boxes_from_node : Node → ℕ → List BoxRec
  | .mk i na ty v o b rb cs, depth =>
    (if v = true ∧ (1 : ℚ) / 100 < o then
      match b with
      | some box => [⟨i, na, ty, box.x, box.y, box.width, box.height, depth, rb⟩]
      | none => []
    else []) ++ extract_boxes_list cs (depth + 1)

/-- The `for child in node.get("children", [])` loop of
`extract_boxes_from_node`. -/
def extract_boxes_list : List Node → ℕ → List BoxRec
  | [], _ => []
  | c :: cs, depth => extract_boxes_from_node c depth ++ extract_boxes_list cs depth

end

/-- C10: an invisible node, or one with opacity at most `0.01`, contributes
no rectangle of its own but its children are still flattened — the output
at such a node is exactly the concatenated output of its subtrees, so any
rectangle a descendant produces survives. -/
theorem c10_invisible_children (i na ty : String) (v : Bool) (o : ℚ)
    (b rb : Option Box) (cs : List Node) (depth : ℕ)
    (h : v = false ∨ o ≤ 1 / 100) :
    extract_boxes_from_node (.mk i na ty v o b rb cs) depth
      = extract_boxes_list cs (depth + 1) := by
  have hcond : ¬(v = true ∧ (1 : ℚ) / 100 < o) := by
    rcases h with h | h
    · rintro ⟨h1, -⟩
      rw [h] at h1
      exact Bool.false_ne_true h1
    · rintro ⟨-, h2⟩
      exact absurd h (not_le.mpr h2)
  simp only [extract_boxes_from_node, if_neg hcond, List.nil_append]

unseal Rat.add Rat.mul Rat.sub Rat.inv in
/-- C10 witness: a visible opaque rectangle below an invisible parent is
still emitted. -/
theorem c10_invisible_children_witness :
    extract_boxes_from_node
        (.mk "p" "parent" "FRAME" false 1 (some ⟨0, 0, 4, 4⟩) none
          [.mk "c" "child" "RECTANGLE" true 1 (some ⟨1, 1, 2, 2⟩) none []]) 0
      = extract_boxes_list
          [Node.mk "c" "child" "RECTANGLE" true 1 (some ⟨1, 1, 2, 2⟩) none []] 1 ∧
    ⟨"c", "child", "RECTANGLE", 1, 1, 2, 2, 1, none⟩ ∈
      extract_boxes_from_node
        (.mk "p" "parent" "FRAME" false 1 (some ⟨0, 0, 4, 4⟩) none
          [.mk "c" "child" "RECTANGLE" true 1 (some ⟨1, 1, 2, 2⟩) none []]) 0 :=
  ⟨c10_invisible_children "p" "parent" "FRAME" false 1 (some ⟨0, 0, 4, 4⟩) none
      [.mk "c" "child" "RECTANGLE" true 1 (some ⟨1, 1, 2, 2⟩) none []] 0 (Or.inl rfl),
   by decide⟩

/-- The root-frame test of `find_root_frame` (hungarian_iou.py line 105):
the node carries an `absoluteBoundingBox` and is FRAME- or CANVAS-typed. -/
def frameLike (ty : String) (b : Option Box) : Bool :=
  b.isSome && (ty == "FRAME" || ty == "CANVAS")

mutual

/-- `find_root_frame` from `src/evaluation/layout/hungarian_iou.py`
(lines 104-111): return the first FRAME/CANVAS node with geometry, else
search the children; `None` when nothing matches. -/
def find_root_frame : Node → Option Box
  | .mk _ _ ty _ _ b _ cs => if frameLike ty b then b else find_root_frame_list cs

/-- The `for child in node.get("children", [])` loop of `find_root_frame`. -/
def find_root_frame_list : List Node → Option Box
  | [] => none
  | c :: cs =>
    match find_root_frame c with
    | some b => some b
    | none => find_root_frame_list cs

end

mutual

/-- Pre-order listing of a tree's nodes (specification device for the
search order of `find_root_frame`). -/
def preorder : Node → List Node
  | .mk i na ty v o b rb cs => .mk i na ty v o b rb cs :: preorder_list cs

/-- Pre-order listing of a forest. -/
def preorder_list : List Node → List Node
  | [] => []
  | c :: cs => preorder c ++ preorder_list cs

end

/-- Whether a node passes the root-frame test. -/
def isFrameRoot (n : Node) : Bool := frameLike n.ntype n.bbox

/-- Normalization of one flattened record by the root frame
(hungarian_iou.py lines 129-135): coordinates shifted and scaled by the
frame, `0.0` where the frame dimension is zero; render bounds untouched. -/
def normalizeRec (frame : Box) (r : BoxRec) : BoxRec :=
  { r with
    x := if frame.width ≠ 0 then (r.x - frame.x) / frame.width else 0
    y := if frame.height ≠ 0 then (r.y - frame.y) / frame.height else 0
    width := if frame.width ≠ 0 then r.width / frame.width else 0
    height := if frame.height ≠ 0 then r.height / frame.height else 0 }

/-- Core of `load_boxes_from_json` (hungarian_iou.py lines 114-143) after
the JSON envelope has been unwrapped to the root node: find the root
frame (raising `ValueError` — here `Except.error` — when there is none),
flatten, and normalize every record by the frame. -/
def load_boxes_core (root : Node) : Except String (List BoxRec × Box) :=
  match find_root_frame root with
  | none => .error "No frame with absoluteBoundingBox found in root."
  | some frame =>
    .ok ((extract_boxes_from_node root 0).map (normalizeRec frame), frame)

mutual

theorem find_root_frame_eq_preorder (n : Node) :
    find_root_frame n = ((preorder n).find? isFrameRoot).bind Node.bbox := by
  match n with
  | .mk i na ty v o b rb cs =>
    rw [find_root_frame, preorder, List.find?]
    by_cases h : frameLike ty b
    · have hroot : isFrameRoot (.mk i na ty v o b rb cs) = true := h
      rw [if_pos h, hroot]
      have hb : b.isSome := by
        have hfl := h
        simp only [frameLike, Bool.and_eq_true] at hfl
        exact hfl.1
      obtain ⟨box, hbox⟩ := Option.isSome_iff_exists.mp hb
      subst hbox
      rfl
    · have hroot : isFrameRoot (.mk i na ty v o b rb cs) = false := by
        simpa [isFrameRoot, Node.ntype, Node.bbox] using h
      rw [if_neg h, hroot]
      exact find_root_frame_list_eq_preorder cs

theorem find_root_frame_list_eq_preorder (l : List Node) :
    find_root_frame_list l = ((preorder_list l).find? isFrameRoot).bind Node.bbox := by
  match l with
  | [] => rfl
  | c :: cs =>
    rw [find_root_frame_list, preorder_list, List.find?_append,
      find_root_frame_eq_preorder c, find_root_frame_list_eq_preorder cs]
    cases hfind : (preorder c).find? isFrameRoot with
    | none => simp
    | some m =>
      have hm : isFrameRoot m = true := List.find?_some hfind
      have hb : m.bbox.isSome := by
        simp only [isFrameRoot, frameLike, Bool.and_eq_true] at hm
        exact hm.1
      obtain ⟨box, hbox⟩ := Option.isSome_iff_exists.mp hb
      simp [hbox]

end

/-- C2 amended: the normalization basis is the bounding box of the first
FRAME- or CANVAS-typed node carrying geometry in pre-order; when no such
node exists, `load_boxes_from_json` fails with an error — there is no
largest-area-rectangle fallback. -/
theorem c2_root_frame (n : Node) :
    find_root_frame n = ((preorder n).find? isFrameRoot).bind Node.bbox ∧
    (find_root_frame n = none →
      load_boxes_core n = .error "No frame with absoluteBoundingBox found in root.") := by
  refine ⟨find_root_frame_eq_preorder n, fun h => ?_⟩
  unfold load_boxes_core
  rw [h]

unseal Rat.add Rat.mul Rat.sub Rat.inv in
/-- C2 counterexample: a tree whose only node is a RECTANGLE with a
positive-area bounding box — the largest-area rectangle of the tree
exists, yet `load_boxes_from_json` raises instead of using it, so
flattening with normalization does not succeed. -/
theorem c2_counterexample :
    find_root_frame (.mk "r" "rect" "RECTANGLE" true 1 (some ⟨0, 0, 5, 5⟩) none [])
      = none ∧
    extract_boxes_from_node
        (.mk "r" "rect" "RECTANGLE" true 1 (some ⟨0, 0, 5, 5⟩) none []) 0
      = [⟨"r", "rect", "RECTANGLE", 0, 0, 5, 5, 0, none⟩] ∧
    load_boxes_core (.mk "r" "rect" "RECTANGLE" true 1 (some ⟨0, 0, 5, 5⟩) none [])
      = .error "No frame with absoluteBoundingBox found in root." := by
  refine ⟨rfl, ?_, rfl⟩
  decide

/-- C2 amended witness: on the rectangle-only tree the pre-order search
finds nothing and loading errors out. -/
theorem c2_root_frame_witness :
    find_root_frame (.mk "r" "rect" "RECTANGLE" true 1 (some ⟨0, 0, 5, 5⟩) none [])
        = ((preorder (.mk "r" "rect" "RECTANGLE" true 1 (some ⟨0, 0, 5, 5⟩) none
            [])).find? isFrameRoot).bind Node.bbox ∧
    load_boxes_core (.mk "r" "rect" "RECTANGLE" true 1 (some ⟨0, 0, 5, 5⟩) none [])
      = .error "No frame with absoluteBoundingBox found in root." :=
  ⟨(c2_root_frame (.mk "r" "rect" "RECTANGLE" true 1 (some ⟨0, 0, 5, 5⟩) none [])).1,
   (c2_root_frame (.mk "r" "rect" "RECTANGLE" true 1 (some ⟨0, 0, 5, 5⟩) none [])).2
     (by decide)⟩

/-! ### The grid-alignment flattener (`grid_alignment.py`) -/

/-- Does `needle` occur at the start of `hay`? -/
def charsStartWith : List Char → List Char → Bool
  | [], _ => true
  | _ :: _, [] => false
  | a :: as, b :: bs => a == b && charsStartWith as bs

/-- Does `needle` occur anywhere in `hay`?  (Python's `keyword in name`.) -/
def charsContain (needle : List Char) : List Char → Bool
  | [] => charsStartWith needle []
  | b :: bs => charsStartWith needle (b :: bs) || charsContain needle bs

/-- ASCII lowering of one character (model of Python's `str.lower`; the
names compared here are ASCII). -/
def lowerChar (c : Char) : Char :=
  if 65 ≤ c.toNat ∧ c.toNat ≤ 90 then Char.ofNat (c.toNat + 32) else c

/-- Model of Python's `str.lower`. -/
def strLower (s : String) : String := ⟨s.data.map lowerChar⟩

/-- `DECORATIVE_KEYWORDS` from `grid_alignment.py`. -/
def DECORATIVE_KEYWORDS : List String := ["freepik"]

/-- `MAX_DEPTH` from `grid_alignment.py`. -/
def MAX_DEPTH : ℕ := 10

/-- `is_decorative` from `grid_alignment.py`: some decorative keyword is a
substring of the lower-cased name. -/
def is_decorative (name : String) : Bool :=
  DECORATIVE_KEYWORDS.any fun keyword =>
    charsContain keyword.data (strLower name).data

/-- A record emitted by `collect_bounding_boxes` in `grid_alignment.py`. -/
structure GridRec where
  x : ℚ
  y : ℚ
  width : ℚ
  height : ℚ
  name : String
  center_x : ℚ
  center_y : ℚ
  right_x : ℚ
  bottom_y : ℚ
  depth : ℕ
  parent : Option String
deriving DecidableEq, Repr

mutual

/-- `collect_bounding_boxes` (grid_alignment.py lines 16-40): prune the
whole subtree past `MAX_DEPTH` or at a decorative name, emit a record when
the node carries a bounding box, recurse with `depth + 1` and the node's
name as parent. -/
def collect_bounding_boxes : Node → ℕ → Option String → List GridRec
  | .mk _ na _ _ _ b _ cs, depth, parent =>
    if MAX_DEPTH < depth ∨ is_decorative na = true then []
    else
      (match b with
        | some box =>
          [⟨box.x, box.y, box.width, box.height, na,
            box.x + box.width / 2, box.y + box.height / 2,
            box.x + box.width, box.y + box.height, depth, parent⟩]
        | none => []) ++ collect_boxes_list cs (depth + 1) (some na)

/-- The `for child in node.get("children", [])` loop of
`collect_bounding_boxes`. -/
def collect_boxes_list : List Node → ℕ → Option String → List GridRec
  | [], _, _ => []
  | c :: cs, depth, parent =>
    collect_bounding_boxes c depth parent ++ collect_boxes_list cs depth parent

end

mutual

theorem collect_depth_le (n : Node) (d : ℕ) (p : Option String) :
    ∀ r ∈ collect_bounding_boxes n d p, r.depth ≤ MAX_DEPTH := by
  match n with
  | .mk i na ty v o b rb cs =>
    intro r hr
    rw [collect_bounding_boxes.eq_def] at hr
    simp only [] at hr
    split at hr
    · simp at hr
    · rename_i hguard
      have hd : d ≤ MAX_DEPTH := by
        rcases not_or.mp hguard with ⟨h1, -⟩
        omega
      rcases List.mem_append.mp hr with h | h
      · split at h
        · rw [List.mem_singleton] at h
          subst h
          exact hd
        · simp at h
      · exact collect_list_depth_le cs (d + 1) (some na) r h

theorem collect_list_depth_le (l : List Node) (d : ℕ) (p : Option String) :
    ∀ r ∈ collect_boxes_list l d p, r.depth ≤ MAX_DEPTH := by
  match l with
  | [] => intro r hr; simp [collect_boxes_list] at hr
  | c :: cs =>
    intro r hr
    rw [collect_boxes_list] at hr
    rcases List.mem_append.mp hr with h | h
    · exact collect_depth_le c d p r h
    · exact collect_list_depth_le cs d p r h

end

/-- C8 amended: the grid-alignment flattener `collect_bounding_boxes`
never emits a record deeper than `MAX_DEPTH = 10`, and prunes every
subtree it enters past that depth; the layout flattener
`extract_boxes_from_node` carries no such bound (see the
counterexample). -/
theorem c8_collect_bounded (n : Node) (d : ℕ) (p : Option String) :
    (∀ r ∈ collect_bounding_boxes n d p, r.depth ≤ MAX_DEPTH) ∧
    (MAX_DEPTH < d → collect_bounding_boxes n d p = []) := by
  refine ⟨collect_depth_le n d p, fun hd => ?_⟩
  match n with
  | .mk i na ty v o b rb cs =>
    rw [collect_bounding_boxes.eq_def]
    simp only []
    rw [if_pos (Or.inl hd)]

/-- A chain of `k + 1` nested frames with a rectangle leaf, the leaf at
depth `k` when flattening starts at depth `0`. -/
def deepChain : ℕ → Node
  | 0 => .mk "leaf" "leaf" "RECTANGLE" true 1 (some ⟨0, 0, 1, 1⟩) none []
  | k + 1 => .mk "w" "wrap" "FRAME" true 1 (some ⟨0, 0, 1, 1⟩) none [deepChain k]

unseal Rat.add Rat.mul Rat.sub Rat.inv in
/-- C8 counterexample: on a 12-level chain the layout flattener
`extract_boxes_from_node` emits the leaf record at depth `11 > 10`, while
the grid flattener emits no record past depth `10` on the same tree. -/
theorem c8_counterexample :
    (⟨"leaf", "leaf", "RECTANGLE", 0, 0, 1, 1, 11, none⟩ : BoxRec) ∈
      extract_boxes_from_node (deepChain 11) 0 ∧
    ((collect_bounding_boxes (deepChain 11) 0 none).map GridRec.depth).contains 11
      = false := by
  decide

unseal Rat.add Rat.mul Rat.sub Rat.inv in
/-- C8 witness: the bound applied to a concrete record of the grid
flattener, and the pruning applied at depth `11`. -/
theorem c8_collect_bounded_witness :
    (⟨0, 0, 1, 1, "leaf", 1/2, 1/2, 1, 1, 0, none⟩ : GridRec).depth ≤ MAX_DEPTH ∧
    collect_bounding_boxes (deepChain 0) 11 none = [] :=
  ⟨(c8_collect_bounded (deepChain 0) 0 none).1
      ⟨0, 0, 1, 1, "leaf", 1/2, 1/2, 1, 1, 0, none⟩ (by decide),
   (c8_collect_bounded (deepChain 0) 11 none).2 (by decide)⟩

/-! ### Tree-signature comparison (`tree_edit.py`) -/

/-- Python `str.strip` whitespace test (ASCII whitespace). -/
def isSpaceChar (c : Char) : Bool :=
  c == ' ' || c == '\t' || c == '\n' || c == '\r'

/-- Model of Python's `str.strip`. -/
def strTrim (s : String) : String :=
  ⟨((s.data.dropWhile isSpaceChar).reverse.dropWhile isSpaceChar).reverse⟩

mutual

/-- `_extract_paths` from `src/evaluation/structure/tree_edit.py`
(lines 5-23): per-node path strings, one set per tree.  In type-only mode
the segment is the type tag; otherwise `name:type` with the name stripped
and lower-cased. -/
def extract_paths : Node → String → Bool → Finset String
  | .mk _ name ty _ _ _ _ cs, pref, byTypeOnly =>
    let nm := strLower (strTrim name)
    let segment := if byTypeOnly then ty else nm ++ ":" ++ ty
    let current := if pref ≠ "" then pref ++ "/" ++ segment else "/" ++ segment
    insert current (extract_paths_list cs current byTypeOnly)

/-- The `for child in node.get("children", [])` loop of `_extract_paths`. -/
def extract_paths_list : List Node → String → Bool → Finset String
  | [], _, _ => ∅
  | c :: cs, pref, byTypeOnly =>
    extract_paths c pref byTypeOnly ∪ extract_paths_list cs pref byTypeOnly

end

/-- The Jaccard value computed by `compute_tree_similarity`
(tree_edit.py line 57): `|A ∩ B| / |A ∪ B|`, and `1.0` when the union is
empty. -/
def jaccardOfSets (A B : Finset String) : ℚ :=
  if (A ∪ B).card ≠ 0 then ((A ∩ B).card : ℚ) / (A ∪ B).card else 1

/-- Result record of `compute_tree_similarity`. -/
structure SimResult where
  gt_nodes : ℕ
  gen_nodes : ℕ
  intersection : ℕ
  union : ℕ
  jaccard : ℚ
  distance : ℚ
deriving DecidableEq, Repr

/-- Core of `compute_tree_similarity` (tree_edit.py lines 44-63) on the
two unwrapped root nodes. -/
def compute_tree_similarity_core (gt_root gen_root : Node) (byTypeOnly : Bool) :
    SimResult :=
  let gt_paths := extract_paths gt_root "" byTypeOnly
  let gen_paths := extract_paths gen_root "" byTypeOnly
  let inter := gt_paths ∩ gen_paths
  let uni := gt_paths ∪ gen_paths
  let jaccard := jaccardOfSets gt_paths gen_paths
  ⟨gt_paths.card, gen_paths.card, inter.card, uni.card, jaccard, 1 - jaccard⟩

lemma extract_paths_nonempty (n : Node) (pref : String) (b : Bool) :
    (extract_paths n pref b).Nonempty := by
  match n with
  | .mk i na ty v o bb rb cs =>
    rw [extract_paths]
    exact Finset.insert_nonempty _ _

lemma jaccardOfSets_comm (A B : Finset String) :
    jaccardOfSets A B = jaccardOfSets B A := by
  unfold jaccardOfSets
  rw [Finset.union_comm, Finset.inter_comm]

/-- C9: the tree-signature similarity is `|A ∩ B| / |A ∪ B|` over the two
path sets, `1` when both sets are empty; it is symmetric, equals `1` on
identical trees, equals `0` for trees with disjoint path sets, and the
distance is one minus the Jaccard value. -/
theorem c9_jaccard (t u : Node) (b : Bool) (A B : Finset String) :
    (jaccardOfSets A B =
      if (A ∪ B).card ≠ 0 then ((A ∩ B).card : ℚ) / (A ∪ B).card else 1) ∧
    (A = ∅ → B = ∅ → jaccardOfSets A B = 1) ∧
    jaccardOfSets A B = jaccardOfSets B A ∧
    (compute_tree_similarity_core t u b).jaccard
      = (compute_tree_similarity_core u t b).jaccard ∧
    (compute_tree_similarity_core t t b).jaccard = 1 ∧
    (Disjoint (extract_paths t "" b) (extract_paths u "" b) →
      (compute_tree_similarity_core t u b).jaccard = 0) ∧
    (compute_tree_similarity_core t u b).distance
      = 1 - (compute_tree_similarity_core t u b).jaccard := by
  refine ⟨rfl, ?_, jaccardOfSets_comm A B, ?_, ?_, ?_, rfl⟩
  · rintro rfl rfl
    simp [jaccardOfSets]
  · simpa [compute_tree_similarity_core] using
      jaccardOfSets_comm (extract_paths t "" b) (extract_paths u "" b)
  · have hne : (extract_paths t "" b).card ≠ 0 :=
      Finset.card_ne_zero.mpr (extract_paths_nonempty t "" b)
    simp only [compute_tree_similarity_core, jaccardOfSets, Finset.union_self,
      Finset.inter_self, hne, ne_eq, not_false_eq_true, if_true]
    exact div_self (by exact_mod_cast hne)
  · intro hd
    have hcard : (extract_paths t "" b ∩ extract_paths u "" b).card = 0 := by
      rw [Finset.disjoint_iff_inter_eq_empty.mp hd]
      exact Finset.card_empty
    simp only [compute_tree_similarity_core, jaccardOfSets]
    split
    · rw [hcard]
      simp
    · rename_i hz
      exfalso
      apply hz
      have hsub : extract_paths t "" b ⊆ extract_paths t "" b ∪ extract_paths u "" b :=
        Finset.subset_union_left
      exact Finset.card_ne_zero.mpr
        ((extract_paths_nonempty t "" b).mono hsub)

/-- C9 witness: two empty sets score `1`; two single-node trees with
different type tags have disjoint path sets and score `0`. -/
theorem c9_jaccard_witness :
    jaccardOfSets ∅ ∅ = 1 ∧
    (compute_tree_similarity_core
        (.mk "a" "x" "FRAME" true 1 none none [])
        (.mk "b" "y" "TEXT" true 1 none none []) false).jaccard = 0 :=
  ⟨(c9_jaccard (.mk "a" "x" "FRAME" true 1 none none [])
      (.mk "b" "y" "TEXT" true 1 none none []) false ∅ ∅).2.1 rfl rfl,
   (c9_jaccard (.mk "a" "x" "FRAME" true 1 none none [])
      (.mk "b" "y" "TEXT" true 1 none none []) false ∅ ∅).2.2.2.2.2.1
     (by decide)⟩

/-! ### Alignment-group comparison (`group_alignment.py`) -/

/-- The `alignment_type` string of the `i`-th group. -/
def typeAt (groups : List AlignGroup) (i : ℕ) : String :=
  (groups.getD i default).alignment_type

/-- Result record of `compute_alignment_score`. -/
structure AlignScore where
  correct : ℕ
  precision : ℚ
  recall_ : ℚ
  f1 : ℚ
deriving DecidableEq, Repr

/-- Core of `compute_alignment_score` (group_alignment.py lines 110-143)
on already-built group lists: match the groups, count a matched pair as
correct exactly when the two `alignment_type` strings coincide, then
precision over GEN, recall over GT with the empty-list conventions, and
the harmonic-mean F1. -/
def compute_alignment_score_core (gt_groups gen_groups : List AlignGroup) :
    AlignScore :=
  let matched := match_alignment_groups gt_groups gen_groups
  let correct := (matched.filter fun t =>
      typeAt gt_groups t.1 == typeAt gen_groups t.2.1).length
  let precision :=
    if gen_groups.length ≠ 0 then (correct : ℚ) / gen_groups.length else 1
  let recall_ :=
    if gt_groups.length ≠ 0 then (correct : ℚ) / gt_groups.length else 1
  let f1 :=
    if 0 < precision + recall_ then 2 * precision * recall_ / (precision + recall_)
    else 0
  ⟨correct, precision, recall_, f1⟩

lemma match_alignment_groups_nil_left (gen_groups : List AlignGroup) :
    match_alignment_groups [] gen_groups = [] := by
  simp [match_alignment_groups]

/-- C7: a matched pair is counted as correct exactly when the two groups'
edge-kind strings are identical; precision is `correct / |GEN|` (`1` when
GEN is empty), recall is `correct / |GT|` (`1` when GT is empty); and with
GT empty but GEN non-empty the precision is `0`. -/
theorem c7_alignment_score (gt_groups gen_groups : List AlignGroup) :
    ((compute_alignment_score_core gt_groups gen_groups).correct
      = ((match_alignment_groups gt_groups gen_groups).filter fun t =>
          typeAt gt_groups t.1 == typeAt gen_groups t.2.1).length) ∧
    (gen_groups ≠ [] →
      (compute_alignment_score_core gt_groups gen_groups).precision
        = ((compute_alignment_score_core gt_groups gen_groups).correct : ℚ)
            / gen_groups.length) ∧
    (gen_groups = [] →
      (compute_alignment_score_core gt_groups gen_groups).precision = 1) ∧
    (gt_groups ≠ [] →
      (compute_alignment_score_core gt_groups gen_groups).recall_
        = ((compute_alignment_score_core gt_groups gen_groups).correct : ℚ)
            / gt_groups.length) ∧
    (gt_groups = [] →
      (compute_alignment_score_core gt_groups gen_groups).recall_ = 1) ∧
    (gt_groups = [] → gen_groups ≠ [] →
      (compute_alignment_score_core gt_groups gen_groups).precision = 0) := by
  refine ⟨rfl, ?_, ?_, ?_, ?_, ?_⟩
  · intro h
    have hlen : gen_groups.length ≠ 0 := by
      simpa [List.length_eq_zero] using h
    simp [compute_alignment_score_core, hlen]
  · rintro rfl
    simp [compute_alignment_score_core]
  · intro h
    have hlen : gt_groups.length ≠ 0 := by
      simpa [List.length_eq_zero] using h
    simp [compute_alignment_score_core, hlen]
  · rintro rfl
    simp [compute_alignment_score_core]
  · rintro rfl h
    have hlen : gen_groups.length ≠ 0 := by
      simpa [List.length_eq_zero] using h
    simp [compute_alignment_score_core, match_alignment_groups_nil_left, hlen]

/-- C7 witness: empty GT group list against one GEN group — recall is `1`
by convention and precision is `0`. -/
theorem c7_alignment_score_witness :
    (compute_alignment_score_core [] [⟨"x_left", ⟨0, 0, 1, 1⟩⟩]).recall_ = 1 ∧
    (compute_alignment_score_core [] [⟨"x_left", ⟨0, 0, 1, 1⟩⟩]).precision = 0 :=
  ⟨(c7_alignment_score [] [⟨"x_left", ⟨0, 0, 1, 1⟩⟩]).2.2.2.2.1 rfl,
   (c7_alignment_score [] [⟨"x_left", ⟨0, 0, 1, 1⟩⟩]).2.2.2.2.2 rfl (by simp)⟩

/-! ### Grid-alignment scoring (`grid_alignment.py` lines 95-106 and
129-141)

The score is `1 / (1 + log (1 + norm_error))` after the normalized error
has been clipped: `if not np.isfinite(norm_error) or norm_error > 1e4:
norm_error = 1e4`.  Over `ℝ` every value is finite, so the clip is the
`> 1e4` branch alone. -/

/-- The clipping of the normalized error to the ceiling `1e4`. -/
noncomputable def clipNormError (e : ℝ) : ℝ := if e > 10000 then 10000 else e

/-- `score = 1 / (1 + math.log(1 + norm_error))`. -/
noncomputable def gridScore (e : ℝ) : ℝ := 1 / (1 + Real.log (1 + e))

lemma gridScore_denom_pos {e : ℝ} (he : 0 ≤ e) : 0 < 1 + Real.log (1 + e) := by
  have h := Real.log_nonneg (by linarith : (1 : ℝ) ≤ 1 + e)
  linarith

lemma clipNormError_nonneg {u : ℝ} (hu : 0 ≤ u) : 0 ≤ clipNormError u := by
  unfold clipNormError
  split
  · norm_num
  · exact hu

/-- C6: the per-cluster score is `1 / (1 + ln (1 + e))` of the (clipped)
normalized error; it is exactly `1` at error `0`, strictly decreases as
the error grows, and on every clipped error it lies in `(0, 1]`. -/
theorem c6_grid_score (e f u : ℝ) (he : 0 ≤ e) (hef : e < f) (hu : 0 ≤ u) :
    gridScore 0 = 1 ∧
    gridScore f < gridScore e ∧
    gridScore (clipNormError u) = 1 / (1 + Real.log (1 + clipNormError u)) ∧
    0 < gridScore (clipNormError u) ∧
    gridScore (clipNormError u) ≤ 1 := by
  have hde : 0 < 1 + Real.log (1 + e) := gridScore_denom_pos he
  have hdc : 0 < 1 + Real.log (1 + clipNormError u) :=
    gridScore_denom_pos (clipNormError_nonneg hu)
  refine ⟨by simp [gridScore], ?_, rfl, ?_, ?_⟩
  · have hlog : Real.log (1 + e) < Real.log (1 + f) :=
      Real.log_lt_log (by linarith) (by linarith)
    exact one_div_lt_one_div_of_lt hde (by linarith)
  · exact one_div_pos.mpr hdc
  · rw [gridScore, div_le_one hdc]
    have := Real.log_nonneg
      (by linarith [clipNormError_nonneg hu] : (1 : ℝ) ≤ 1 + clipNormError u)
    linarith

/-- C6 witness: at errors `0 < 1` the score is `1` at `0`, smaller at `1`,
and the clipped score at `0` lies in `(0, 1]`. -/
theorem c6_grid_score_witness :
    gridScore 0 = 1 ∧
    gridScore 1 < gridScore 0 ∧
    gridScore (clipNormError 0) = 1 / (1 + Real.log (1 + clipNormError 0)) ∧
    0 < gridScore (clipNormError 0) ∧
    gridScore (clipNormError 0) ≤ 1 :=
  c6_grid_score 0 1 0 (by norm_num) (by norm_num) (by norm_num)

end Canvas
